import Mathlib

/-!
Verification of `installer/generate_background.py`, centred on the minimal
dependency-free PNG encoder `create_png` (the "Minimal Raster Encoder"), its
fallback chain, and the script's command-line handling.

Bytes are modelled as natural numbers (`Nat`); byte strings as `List Nat`.
`zlib.compress` is an external library call, so the encoder is parameterised
by an arbitrary `compress : List Nat → List Nat`; a conforming decoder is
parameterised by the matching `inflate`, with the round-trip property
`inflate (compress x) = x` taken as a hypothesis (it is the defining contract
of deflate).
-/

namespace GenerateBackground

/-- `struct.pack('>I', n)`: the four big-endian bytes of `n` (for `n < 2^32`,
which `struct.pack` requires). -/
def packU32 (n : Nat) : List Nat :=
  [n / 2 ^ 24 % 256, n / 2 ^ 16 % 256, n / 2 ^ 8 % 256, n % 256]

/-- Read a 4-byte big-endian unsigned integer. -/
def readU32 (bs : List Nat) : Nat :=
  match bs with
  | [a, b, c, d] => a * 2 ^ 24 + b * 2 ^ 16 + c * 2 ^ 8 + d
  | _ => 0

theorem packU32_length (n : Nat) : (packU32 n).length = 4 := rfl

theorem packU32_mem_lt (n : Nat) : ∀ x ∈ packU32 n, x < 256 := by
  intro x hx
  simp only [packU32, List.mem_cons, List.not_mem_nil, or_false] at hx
  rcases hx with h | h | h | h <;> subst h <;> exact Nat.mod_lt _ (by norm_num)

theorem readU32_packU32 {n : Nat} (h : n < 2 ^ 32) : readU32 (packU32 n) = n := by
  simp only [packU32, readU32]
  omega

/-- One round of the CRC-32 shift: the polynomial `0xEDB88320` (reflected),
exactly as `zlib.crc32` computes it. -/
def crc32Step (c : Nat) : Nat :=
  if c % 2 = 1 then (c / 2) ^^^ 0xEDB88320 else c / 2

/-- Fold one input byte into the running CRC. -/
def crc32Byte (c b : Nat) : Nat :=
  crc32Step^[8] (c ^^^ b)

/-- `zlib.crc32(data)`: CRC-32 with initial value `0xFFFFFFFF` and final
complement. -/
def crc32 (data : List Nat) : Nat :=
  (data.foldl crc32Byte 0xFFFFFFFF) ^^^ 0xFFFFFFFF

theorem crc32Step_lt {c : Nat} (h : c < 2 ^ 32) : crc32Step c < 2 ^ 32 := by
  unfold crc32Step
  split
  · exact Nat.xor_lt_two_pow (by omega) (by norm_num)
  · omega

theorem crc32Step_iter_lt (n : Nat) {c : Nat} (h : c < 2 ^ 32) :
    crc32Step^[n] c < 2 ^ 32 := by
  induction n generalizing c with
  | zero => exact h
  | succ k ih => rw [Function.iterate_succ_apply]; exact ih (crc32Step_lt h)

theorem crc32Byte_lt {c b : Nat} (hc : c < 2 ^ 32) (hb : b < 2 ^ 32) :
    crc32Byte c b < 2 ^ 32 :=
  crc32Step_iter_lt 8 (Nat.xor_lt_two_pow hc hb)

theorem crc32_lt {data : List Nat} (h : ∀ x ∈ data, x < 2 ^ 32) :
    crc32 data < 2 ^ 32 := by
  unfold crc32
  refine Nat.xor_lt_two_pow ?_ (by norm_num)
  have : ∀ (l : List Nat) (c : Nat), c < 2 ^ 32 → (∀ x ∈ l, x < 2 ^ 32) →
      l.foldl crc32Byte c < 2 ^ 32 := by
    intro l
    induction l with
    | nil => intro c hc _; exact hc
    | cons a t ih =>
        intro c hc hl
        exact ih _ (crc32Byte_lt hc (hl a (by simp)))
          fun x hx => hl x (by simp [hx])
  exact this data 0xFFFFFFFF (by norm_num) h

/-- `png_chunk(chunk_type, data)`: 4-byte big-endian length of `data`, the
4-byte type tag, the payload, then the CRC-32 of `chunk_type + data`
(`zlib.crc32(...) & 0xffffffff` is the identity here since the CRC is already
below `2^32`). -/
def png_chunk (chunkType data : List Nat) : List Nat :=
  packU32 data.length ++ chunkType ++ data ++ packU32 (crc32 (chunkType ++ data))

/-- The fixed 8-byte PNG signature `b'\x89PNG\r\n\x1a\n'`. -/
def pngSignature : List Nat := [0x89, 0x50, 0x4E, 0x47, 0x0D, 0x0A, 0x1A, 0x0A]

/-- The ASCII bytes of `b'IHDR'`. -/
def ihdrType : List Nat := [0x49, 0x48, 0x44, 0x52]

/-- The ASCII bytes of `b'IDAT'`. -/
def idatType : List Nat := [0x49, 0x44, 0x41, 0x54]

/-- The ASCII bytes of `b'IEND'`. -/
def iendType : List Nat := [0x49, 0x45, 0x4E, 0x44]

/-- `struct.pack('>IIBBBBB', w, h, 8, 2, 0, 0, 0)`: width, height, bit depth 8,
color type 2 (truecolor), compression 0, filter 0, interlace 0. -/
def ihdrData (w h : Nat) : List Nat :=
  packU32 w ++ packU32 h ++ [8, 2, 0, 0, 0]

/-- `row = bytes([r, g, b]) * w`: `w` copies of the 3-byte pixel. -/
def pngRow (w r g b : Nat) : List Nat :=
  (List.replicate w [r, g, b]).flatten

/-- The loop `for y in range(h): raw_data += b'\x00' + row` starting from
`b''`. -/
def rawData (w h r g b : Nat) : List Nat :=
  (List.range h).foldl (fun acc _ => acc ++ (0 :: pngRow w r g b)) []

/-- `create_png(w, h, r, g, b)`: signature, IHDR, one IDAT holding the
deflate-compressed scanline stream, and an empty IEND. `compress` stands for
`zlib.compress(·, 9)`. -/
def create_png (compress : List Nat → List Nat) (w h r g b : Nat) : List Nat :=
  pngSignature ++ png_chunk ihdrType (ihdrData w h) ++
    png_chunk idatType (compress (rawData w h r g b)) ++ png_chunk iendType []

/-- `create_png_native(output_path, width, height)`: fixes the fill color to
`bg_r, bg_g, bg_b = 0, 0, 0` and writes `create_png(width, height, 0, 0, 0)`;
the byte buffer it writes is the whole observable output. -/
def create_png_native (compress : List Nat → List Nat) (w h : Nat) : List Nat :=
  create_png compress w h 0 0 0

theorem pngRow_length (w r g b : Nat) : (pngRow w r g b).length = 3 * w := by
  induction w with
  | zero => rfl
  | succ k ih =>
      simp only [pngRow, List.replicate_succ, List.flatten_cons] at ih ⊢
      simp [List.length_append, ih]
      omega

theorem rawData_eq (w h r g b : Nat) :
    rawData w h r g b = (List.replicate h (0 :: pngRow w r g b)).flatten := by
  suffices hgen : ∀ (n : Nat) (acc : List Nat),
      (List.range n).foldl (fun a _ => a ++ (0 :: pngRow w r g b)) acc =
        acc ++ (List.replicate n (0 :: pngRow w r g b)).flatten by
    simpa using hgen h []
  intro n
  induction n with
  | zero => simp
  | succ k ih =>
      intro acc
      rw [List.range_succ, List.foldl_append, ih]
      simp [List.replicate_succ' k, List.append_assoc]

theorem join_replicate_length {α : Type} (n : Nat) (s : List α) :
    ((List.replicate n s).flatten).length = n * s.length := by
  induction n with
  | zero => simp
  | succ k ih =>
      simp only [List.replicate_succ, List.flatten_cons, List.length_append, ih]
      ring

theorem rawData_length (w h r g b : Nat) :
    (rawData w h r g b).length = h * (1 + 3 * w) := by
  rw [rawData_eq, join_replicate_length]
  simp only [List.length_cons, pngRow_length]
  ring

/-- Parse a PNG chunk stream (the bytes after the 8-byte signature) into a
list of `(type, payload, stored-crc)` triples, following the chunk layout:
4-byte big-endian payload length, 4-byte type, payload, 4-byte CRC. Fails on
trailing garbage or truncated chunks. -/
def parseChunks (bs : List Nat) : Option (List (List Nat × List Nat × Nat)) :=
  if h1 : bs = [] then some []
  else if h2 : 12 + readU32 (bs.take 4) ≤ bs.length then
    match parseChunks (bs.drop (12 + readU32 (bs.take 4))) with
    | some rest =>
        some (((bs.drop 4).take 4,
               (bs.drop 8).take (readU32 (bs.take 4)),
               readU32 ((bs.drop (8 + readU32 (bs.take 4))).take 4)) :: rest)
    | none => none
  else none
termination_by bs.length
decreasing_by
  simp only [List.length_drop]
  have h0 : bs.length ≠ 0 := fun hz => h1 (List.length_eq_zero.mp hz)
  omega

theorem parseChunks_nil : parseChunks [] = some [] := by
  rw [parseChunks]
  rfl

theorem parseChunks_chunk (ty payload rest : List Nat) (hty : ty.length = 4)
    (hplen : payload.length < 2 ^ 32)
    (hbytes : ∀ x ∈ ty ++ payload, x < 2 ^ 32) :
    parseChunks (png_chunk ty payload ++ rest) =
      (parseChunks rest).map
        (fun cs => (ty, payload, crc32 (ty ++ payload)) :: cs) := by
  have hassoc : png_chunk ty payload ++ rest =
      packU32 payload.length ++
        (ty ++ (payload ++ (packU32 (crc32 (ty ++ payload)) ++ rest))) := by
    simp [png_chunk, List.append_assoc]
  set bs := png_chunk ty payload ++ rest with hbs
  have hne : bs ≠ [] := by
    rw [hassoc]; simp [packU32]
  have htake4 : bs.take 4 = packU32 payload.length := by
    rw [hassoc]; exact List.take_left' (packU32_length _)
  have hread : readU32 (bs.take 4) = payload.length := by
    rw [htake4]; exact readU32_packU32 hplen
  have hlength : bs.length = 12 + payload.length + rest.length := by
    rw [hassoc]
    simp [List.length_append, packU32_length, hty]
    omega
  have hguard : 12 + readU32 (bs.take 4) ≤ bs.length := by
    rw [hread, hlength]; omega
  have hdrop4 : bs.drop 4 =
      ty ++ (payload ++ (packU32 (crc32 (ty ++ payload)) ++ rest)) := by
    rw [hassoc]; exact List.drop_left' (packU32_length _)
  have htyeq : (bs.drop 4).take 4 = ty := by
    rw [hdrop4]; exact List.take_left' hty
  have hdrop8 : bs.drop 8 =
      payload ++ (packU32 (crc32 (ty ++ payload)) ++ rest) := by
    have : bs.drop 8 = (bs.drop 4).drop 4 := by
      rw [List.drop_drop]
    rw [this, hdrop4]; exact List.drop_left' hty
  have hpayload : (bs.drop 8).take payload.length = payload := by
    rw [hdrop8]; exact List.take_left _ _
  have hdrop8L : bs.drop (8 + payload.length) =
      packU32 (crc32 (ty ++ payload)) ++ rest := by
    have : bs.drop (8 + payload.length) = (bs.drop 8).drop payload.length := by
      rw [List.drop_drop, Nat.add_comm]
    rw [this, hdrop8]; exact List.drop_left _ _
  have hcrc : readU32 ((bs.drop (8 + payload.length)).take 4) =
      crc32 (ty ++ payload) := by
    rw [hdrop8L, List.take_left' (packU32_length _)]
    exact readU32_packU32 (crc32_lt hbytes)
  have hdroprest : bs.drop (12 + payload.length) = rest := by
    have : bs.drop (12 + payload.length) =
        (bs.drop (8 + payload.length)).drop 4 := by
      rw [List.drop_drop]; ring_nf
    rw [this, hdrop8L]; exact List.drop_left' (packU32_length _)
  rw [parseChunks, dif_neg hne, dif_pos hguard, hread, htyeq, hpayload, hcrc,
    hdroprest]
  cases parseChunks rest <;> simp

theorem ihdrData_length (w h : Nat) : (ihdrData w h).length = 13 := by
  simp [ihdrData, packU32_length]

theorem ihdrData_mem_lt (w h : Nat) : ∀ x ∈ ihdrData w h, x < 256 := by
  intro x hx
  simp only [ihdrData, List.mem_append] at hx
  rcases hx with (hx | hx) | hx
  · exact packU32_mem_lt _ x hx
  · exact packU32_mem_lt _ x hx
  · simp only [List.mem_cons, List.not_mem_nil, or_false] at hx
    rcases hx with h | h | h | h | h <;> subst h <;> norm_num

theorem create_png_drop8 (compress : List Nat → List Nat) (w h r g b : Nat) :
    (create_png compress w h r g b).drop 8 =
      png_chunk ihdrType (ihdrData w h) ++
        (png_chunk idatType (compress (rawData w h r g b)) ++
          png_chunk iendType []) := by
  have : create_png compress w h r g b =
      pngSignature ++
        (png_chunk ihdrType (ihdrData w h) ++
          (png_chunk idatType (compress (rawData w h r g b)) ++
            png_chunk iendType [])) := by
    simp [create_png, List.append_assoc]
  rw [this]
  exact List.drop_left' rfl

/-- The chunk stream of `create_png`'s output parses into exactly IHDR, IDAT,
IEND, each carrying its CRC-32 over (type ++ payload). -/
theorem parse_create_png (compress : List Nat → List Nat) (w h r g b : Nat)
    (hcb : ∀ x ∈ compress (rawData w h r g b), x < 256)
    (hclen : (compress (rawData w h r g b)).length < 2 ^ 32) :
    parseChunks ((create_png compress w h r g b).drop 8) =
      some [(ihdrType, ihdrData w h, crc32 (ihdrType ++ ihdrData w h)),
            (idatType, compress (rawData w h r g b),
              crc32 (idatType ++ compress (rawData w h r g b))),
            (iendType, [], crc32 (iendType ++ []))] := by
  rw [create_png_drop8]
  rw [parseChunks_chunk ihdrType (ihdrData w h)
    (png_chunk idatType (compress (rawData w h r g b)) ++ png_chunk iendType [])
    rfl (by rw [ihdrData_length]; norm_num) ?hb1]
  case hb1 =>
    intro x hx
    rcases List.mem_append.mp hx with hx | hx
    · have : x < 256 := by
        simp only [ihdrType, List.mem_cons, List.not_mem_nil, or_false] at hx
        rcases hx with h' | h' | h' | h' <;> subst h' <;> norm_num
      omega
    · have := ihdrData_mem_lt w h x hx
      omega
  rw [parseChunks_chunk idatType (compress (rawData w h r g b))
    (png_chunk iendType []) rfl hclen ?hb2]
  case hb2 =>
    intro x hx
    rcases List.mem_append.mp hx with hx | hx
    · have : x < 256 := by
        simp only [idatType, List.mem_cons, List.not_mem_nil, or_false] at hx
        rcases hx with h' | h' | h' | h' <;> subst h' <;> norm_num
      omega
    · have := hcb x hx
      omega
  rw [show png_chunk iendType [] = png_chunk iendType [] ++ [] by simp]
  rw [parseChunks_chunk iendType [] [] rfl (by norm_num) ?hb3]
  case hb3 =>
    intro x hx
    simp only [List.append_nil, iendType, List.mem_cons, List.not_mem_nil,
      or_false] at hx
    rcases hx with h' | h' | h' | h' <;> subst h' <;> norm_num
  rw [parseChunks_nil]
  rfl

/-- Modelled from the spec: a decoded scanline body is split into 3-byte RGB
pixels ("the raw 3-byte-per-pixel row"); fails unless the length is a
multiple of 3. -/
def splitPixels : List Nat → Option (List (Nat × Nat × Nat))
  | [] => some []
  | r :: g :: b :: rest => (splitPixels rest).map fun ps => (r, g, b) :: ps
  | [_] => none
  | [_, _] => none

/-- Modelled from the spec: each scanline of the decompressed stream is "a
leading filter-type byte (value 0 = no filtering) followed by the raw
3-byte-per-pixel row" of `w` pixels; the whole stream is consumed. -/
def splitScanlines (w : Nat) : List Nat → Option (List (List (Nat × Nat × Nat)))
  | [] => some []
  | f :: rest =>
    if f = 0 ∧ 3 * w ≤ rest.length then
      match splitPixels (rest.take (3 * w)), splitScanlines w (rest.drop (3 * w)) with
      | some row, some rows => some (row :: rows)
      | _, _ => none
    else none
termination_by l => l.length
decreasing_by
  simp only [List.length_drop, List.length_cons]
  omega

/-- Modelled from the spec: a conforming PNG decoder ("decode") for the class
of files the Minimal Raster Encoder emits. It checks the 8-byte signature,
parses the chunk stream, validates every chunk's CRC-32, requires a leading
13-byte IHDR declaring 8-bit truecolor with no interlace, reads width and
height from it, requires the stream to end with IEND, inflates the
concatenated IDAT payloads, and reconstructs the pixel grid from the
filter-byte-0 scanlines. `inflate` stands for deflate decompression (the
inverse of `zlib.compress`). Returns `none` on anything malformed. -/
def decodePng (inflate : List Nat → List Nat) (bs : List Nat) :
    Option (List (List (Nat × Nat × Nat))) :=
  if bs.take 8 = pngSignature then
    match parseChunks (bs.drop 8) with
    | some ((t0, p0, c0) :: rest) =>
      if t0 = ihdrType ∧ p0.length = 13 ∧ p0.drop 8 = [8, 2, 0, 0, 0] ∧
          c0 = crc32 (t0 ++ p0) ∧
          (∀ c ∈ rest, c.2.2 = crc32 (c.1 ++ c.2.1)) ∧
          (rest.map Prod.fst).getLast? = some iendType then
        let w := readU32 (p0.take 4)
        let h := readU32 ((p0.drop 4).take 4)
        let idat := ((rest.filter fun c => c.1 = idatType).map
          fun c => c.2.1).flatten
        match splitScanlines w (inflate idat) with
        | some rows => if rows.length = h then some rows else none
        | none => none
      else none
    | _ => none
  else none

theorem splitPixels_pngRow (w r g b : Nat) :
    splitPixels (pngRow w r g b) = some (List.replicate w (r, g, b)) := by
  induction w with
  | zero => rfl
  | succ k ih =>
      have hrow : pngRow (k + 1) r g b = r :: g :: b :: pngRow k r g b := by
        simp [pngRow, List.replicate_succ]
      rw [hrow, splitPixels, ih]
      simp [List.replicate_succ]

theorem splitScanlines_nil (w : Nat) : splitScanlines w [] = some [] := by
  rw [splitScanlines]

theorem splitScanlines_rawData (w h r g b : Nat) :
    splitScanlines w ((List.replicate h (0 :: pngRow w r g b)).flatten) =
      some (List.replicate h (List.replicate w (r, g, b))) := by
  induction h with
  | zero => simp [splitScanlines_nil]
  | succ k ih =>
      have hflat : (List.replicate (k + 1) (0 :: pngRow w r g b)).flatten =
          0 :: (pngRow w r g b ++
            (List.replicate k (0 :: pngRow w r g b)).flatten) := by
        simp [List.replicate_succ]
      rw [hflat, splitScanlines]
      have hcond : (0 : Nat) = 0 ∧ 3 * w ≤
          (pngRow w r g b ++
            (List.replicate k (0 :: pngRow w r g b)).flatten).length := by
        refine ⟨rfl, ?_⟩
        rw [List.length_append, pngRow_length]
        omega
      rw [if_pos hcond, List.take_left' (pngRow_length w r g b),
        List.drop_left' (pngRow_length w r g b), splitPixels_pngRow, ih]
      simp [List.replicate_succ]

theorem create_png_take8 (compress : List Nat → List Nat) (w h r g b : Nat) :
    (create_png compress w h r g b).take 8 = pngSignature := by
  have : create_png compress w h r g b =
      pngSignature ++
        (png_chunk ihdrType (ihdrData w h) ++
          (png_chunk idatType (compress (rawData w h r g b)) ++
            png_chunk iendType [])) := by
    simp [create_png, List.append_assoc]
  rw [this]
  exact List.take_left' rfl

theorem ihdrData_assoc (w h : Nat) :
    ihdrData w h = packU32 w ++ (packU32 h ++ [8, 2, 0, 0, 0]) := by
  simp [ihdrData, List.append_assoc]

theorem ihdrData_take4 (w h : Nat) : (ihdrData w h).take 4 = packU32 w := by
  rw [ihdrData_assoc]; exact List.take_left' (packU32_length _)

theorem ihdrData_drop4 (w h : Nat) :
    (ihdrData w h).drop 4 = packU32 h ++ [8, 2, 0, 0, 0] := by
  rw [ihdrData_assoc]; exact List.drop_left' (packU32_length _)

theorem ihdrData_drop8 (w h : Nat) : (ihdrData w h).drop 8 = [8, 2, 0, 0, 0] := by
  have : (ihdrData w h).drop 8 = ((ihdrData w h).drop 4).drop 4 := by
    rw [List.drop_drop]
  rw [this, ihdrData_drop4]
  exact List.drop_left' (packU32_length _)

/-- Round trip through the conforming decoder: the core of claims C1 and C10. -/
theorem decode_create_png (compress inflate : List Nat → List Nat)
    (w h r g b : Nat) (hw : w < 2 ^ 32) (hh : h < 2 ^ 32)
    (hcb : ∀ x ∈ compress (rawData w h r g b), x < 256)
    (hclen : (compress (rawData w h r g b)).length < 2 ^ 32)
    (hinf : inflate (compress (rawData w h r g b)) = rawData w h r g b) :
    decodePng inflate (create_png compress w h r g b) =
      some (List.replicate h (List.replicate w (r, g, b))) := by
  have hdec := parse_create_png compress w h r g b hcb hclen
  unfold decodePng
  rw [if_pos (create_png_take8 compress w h r g b), hdec]
  have hcond : ihdrType = ihdrType ∧ (ihdrData w h).length = 13 ∧
      (ihdrData w h).drop 8 = [8, 2, 0, 0, 0] ∧
      crc32 (ihdrType ++ ihdrData w h) = crc32 (ihdrType ++ ihdrData w h) ∧
      (∀ c ∈ [(idatType, compress (rawData w h r g b),
                crc32 (idatType ++ compress (rawData w h r g b))),
              (iendType, ([] : List Nat), crc32 (iendType ++ []))],
        c.2.2 = crc32 (c.1 ++ c.2.1)) ∧
      (([(idatType, compress (rawData w h r g b),
           crc32 (idatType ++ compress (rawData w h r g b))),
         (iendType, ([] : List Nat), crc32 (iendType ++ []))].map
          Prod.fst).getLast? = some iendType) := by
    refine ⟨rfl, ihdrData_length w h, ihdrData_drop8 w h, rfl, ?_, rfl⟩
    intro c hc
    rcases List.mem_cons.mp hc with hc | hc
    · subst hc; rfl
    · rcases List.mem_cons.mp hc with hc | hc
      · subst hc; rfl
      · exact absurd hc (List.not_mem_nil c)
  dsimp only
  rw [if_pos hcond]
  simp only [List.filter, List.map, List.flatten, decide_eq_true_eq]
  rw [ihdrData_take4, ihdrData_drop4, List.take_left' (packU32_length h),
    readU32_packU32 hw, readU32_packU32 hh]
  rw [List.append_nil, hinf, rawData_eq, splitScanlines_rawData]
  simp

/-- Which external capabilities are present/succeed in a given run:
`pilAvailable` — `from PIL import ...` does not raise `ImportError`;
`rsvgOk` — the `rsvg-convert` subprocess exists and exits successfully;
`qlmanageOk` — the `qlmanage` subprocess succeeds (within its timeout) and
leaves the expected `.svg.png` thumbnail on disk. -/
structure FallbackEnv where
  pilAvailable : Bool
  rsvgOk : Bool
  qlmanageOk : Bool
deriving DecidableEq

/-- The four strategies of the background-generation fallback chain. -/
inductive Strategy where
  | pil
  | rsvgConvert
  | qlmanage
  | nativeEncoder
deriving DecidableEq

/-- The fixed order in which `generate_background` tries its strategies. -/
def strategyOrder : List Strategy :=
  [.pil, .rsvgConvert, .qlmanage, .nativeEncoder]

/-- Whether a strategy succeeds in the given environment; the native encoder
(`create_png_native`) always succeeds. -/
def strategySucceeds (e : FallbackEnv) : Strategy → Bool
  | .pil => e.pilAvailable
  | .rsvgConvert => e.rsvgOk
  | .qlmanage => e.qlmanageOk
  | .nativeEncoder => true

/-- `generate_background_native`: run `rsvg-convert`; if that failed (its
`try` swallowed the error) run `qlmanage`; if still not converted call
`create_png_native`. Returns the strategies attempted, in order, and the one
that produced the file. -/
def generate_background_native_run (e : FallbackEnv) : List Strategy × Strategy :=
  if e.rsvgOk then ([.rsvgConvert], .rsvgConvert)
  else if e.qlmanageOk then ([.rsvgConvert, .qlmanage], .qlmanage)
  else ([.rsvgConvert, .qlmanage, .nativeEncoder], .nativeEncoder)

/-- `generate_background`: try the PIL path; on `ImportError` fall through to
`generate_background_native`. -/
def generate_background_run (e : FallbackEnv) : List Strategy × Strategy :=
  if e.pilAvailable then ([.pil], .pil)
  else (.pil :: (generate_background_native_run e).1,
        (generate_background_native_run e).2)

/-- Modelled from the spec (thin-glue `int()` call of the `__main__` block):
Python `int(s)` on a plain decimal literal — an optional sign followed by one
or more ASCII digits; anything else raises `ValueError`. -/
def digitsToNat (cs : List Char) : Nat :=
  cs.foldl (fun a c => a * 10 + (c.toNat - 48)) 0

/-- `int(s)` as used by the CLI: `some` of the value on a decimal literal,
`none` for the `ValueError` case. -/
def pyInt (s : String) : Option Int :=
  match s.toList with
  | [] => none
  | '-' :: rest =>
      if rest ≠ [] ∧ rest.all Char.isDigit then some (-(digitsToNat rest : Int))
      else none
  | '+' :: rest =>
      if rest ≠ [] ∧ rest.all Char.isDigit then some (digitsToNat rest : Int)
      else none
  | cs =>
      if cs.all Char.isDigit then some (digitsToNat cs : Int) else none

/-- Observable outcome of running the `__main__` block. -/
inductive CliOutcome where
  | usageExit
  | valueError
  | run (outputPath : String) (args : List Int)
deriving DecidableEq

/-- Process exit code of each outcome: `sys.exit(1)` after the usage message,
`1` for an uncaught `ValueError` traceback, `0` on success. -/
def exitCode : CliOutcome → Nat
  | .usageExit => 1
  | .valueError => 1
  | .run _ _ => 0

/-- The `__main__` block: `len(sys.argv) < 10` prints the usage line and calls
`sys.exit(1)`; otherwise the eight numeric arguments `sys.argv[2..9]` are
parsed with `int()` in order (a failure raises `ValueError`, which nothing
catches), and on success `generate_background` runs. -/
def mainModel (argv : List String) : CliOutcome :=
  if argv.length < 10 then .usageExit
  else
    match ((argv.drop 2).take 8).mapM pyInt with
    | some ns => .run (argv.getD 1 "") ns
    | none => .valueError

/-- Re-serialize a parsed `(type, payload, crc)` triple: 4-byte big-endian
payload length, type tag, payload, 4-byte stored CRC. -/
def chunkBytes (c : List Nat × List Nat × Nat) : List Nat :=
  packU32 c.2.1.length ++ c.1 ++ c.2.1 ++ packU32 c.2.2

/-- The IHDR payload of the encoder's output, read back from the byte buffer:
the payload of the first chunk, provided its tag is `IHDR`. -/
def pngHeaderPayload (bs : List Nat) : Option (List Nat) :=
  (parseChunks (bs.drop 8)).bind fun cs =>
    cs.head?.bind fun c => if c.1 = ihdrType then some c.2.1 else none

/-- Concrete malformed command line: ten arguments, so the arity check
passes, but `int("abc")` raises `ValueError`. -/
def badArgv : List String :=
  ["generate_background.py", "bg.png", "abc", "100", "100", "100", "100",
   "100", "100", "100"]

/-- C1: decoding the buffer produced by `create_png` with a conforming PNG
decoder yields exactly `width * height` pixels, all equal to the input color.
`compress`/`inflate` stand for `zlib.compress(·, 9)` and its inverse; a
conforming decoder inverts deflate, which is the `hinf` hypothesis. -/
theorem claim_C1_encode_decode_roundtrip
    (compress inflate : List Nat → List Nat) (w h r g b : Nat)
    (hw0 : 0 < w) (hh0 : 0 < h) (hw : w < 2 ^ 32) (hh : h < 2 ^ 32)
    (hr : r < 256) (hg : g < 256) (hb : b < 256)
    (hcb : ∀ x ∈ compress (rawData w h r g b), x < 256)
    (hclen : (compress (rawData w h r g b)).length < 2 ^ 32)
    (hinf : inflate (compress (rawData w h r g b)) = rawData w h r g b) :
    ∃ grid, decodePng inflate (create_png compress w h r g b) = some grid ∧
      grid.length = h ∧ (∀ row ∈ grid, row.length = w) ∧
      (∀ row ∈ grid, ∀ px ∈ row, px = (r, g, b)) ∧
      grid.flatten.length = w * h := by
  refine ⟨_, decode_create_png compress inflate w h r g b hw hh hcb hclen hinf,
    ?_, ?_, ?_, ?_⟩
  · simp
  · intro row hrow
    rw [List.eq_of_mem_replicate hrow]
    simp
  · intro row hrow px hpx
    rw [List.eq_of_mem_replicate hrow] at hpx
    exact List.eq_of_mem_replicate hpx
  · rw [join_replicate_length]
    simp [Nat.mul_comm]

/-- C1 witness: `encode(2, 2, (0, 0, 0))` decodes to a 2×2 all-black grid
(hypotheses discharged at `compress = inflate = id`). -/
theorem claim_C1_witness :
    (0 < 2 ∧ 2 < 2 ^ 32 ∧ 0 < 256 ∧
      (∀ x ∈ id (rawData 2 2 0 0 0), x < 256) ∧
      (id (rawData 2 2 0 0 0)).length < 2 ^ 32 ∧
      id (id (rawData 2 2 0 0 0)) = rawData 2 2 0 0 0) ∧
    ∃ grid, decodePng id (create_png id 2 2 0 0 0) = some grid ∧
      grid.length = 2 ∧ (∀ row ∈ grid, row.length = 2) ∧
      (∀ row ∈ grid, ∀ px ∈ row, px = (0, 0, 0)) ∧
      grid.flatten.length = 2 * 2 :=
  ⟨⟨by decide, by decide, by decide, by decide, by decide, rfl⟩,
   claim_C1_encode_decode_roundtrip id id 2 2 0 0 0 (by decide) (by decide)
     (by decide) (by decide) (by decide) (by decide) (by decide) (by decide)
     (by decide) rfl⟩

/-- C2: every chunk of the output is laid out as 4-byte big-endian payload
length, 4-byte type tag, payload, 4-byte CRC, and the stored CRC equals the
CRC-32 of (type tag ++ payload). -/
theorem claim_C2_chunk_layout_crc (compress : List Nat → List Nat)
    (w h r g b : Nat)
    (hcb : ∀ x ∈ compress (rawData w h r g b), x < 256)
    (hclen : (compress (rawData w h r g b)).length < 2 ^ 32) :
    ∃ cs, parseChunks ((create_png compress w h r g b).drop 8) = some cs ∧
      (create_png compress w h r g b).drop 8 = (cs.map chunkBytes).flatten ∧
      ∀ c ∈ cs, c.2.2 = crc32 (c.1 ++ c.2.1) := by
  refine ⟨_, parse_create_png compress w h r g b hcb hclen, ?_, ?_⟩
  · rw [create_png_drop8]
    simp [chunkBytes, png_chunk, List.append_assoc]
  · intro c hc
    rcases List.mem_cons.mp hc with hc | hc
    · subst hc; rfl
    · rcases List.mem_cons.mp hc with hc | hc
      · subst hc; rfl
      · rcases List.mem_cons.mp hc with hc | hc
        · subst hc; rfl
        · exact absurd hc (List.not_mem_nil c)

/-- C2 witness at `compress = id`, a 1×1 black image. -/
theorem claim_C2_witness :
    ((∀ x ∈ id (rawData 1 1 0 0 0), x < 256) ∧
      (id (rawData 1 1 0 0 0)).length < 2 ^ 32) ∧
    ∃ cs, parseChunks ((create_png id 1 1 0 0 0).drop 8) = some cs ∧
      (create_png id 1 1 0 0 0).drop 8 = (cs.map chunkBytes).flatten ∧
      ∀ c ∈ cs, c.2.2 = crc32 (c.1 ++ c.2.1) :=
  ⟨⟨by decide, by decide⟩,
   claim_C2_chunk_layout_crc id 1 1 0 0 0 (by decide) (by decide)⟩

/-- C3: the header chunk of the output is the first chunk, tagged IHDR, and
declares exactly the input width and height (4-byte big-endian each), bit
depth 8, color type 2 (truecolor: no palette, no alpha), compression 0,
filter 0, and interlace 0. -/
theorem claim_C3_ihdr_fields (compress : List Nat → List Nat)
    (w h r g b : Nat) (hw : w < 2 ^ 32) (hh : h < 2 ^ 32)
    (hcb : ∀ x ∈ compress (rawData w h r g b), x < 256)
    (hclen : (compress (rawData w h r g b)).length < 2 ^ 32) :
    pngHeaderPayload (create_png compress w h r g b) = some (ihdrData w h) ∧
    readU32 ((ihdrData w h).take 4) = w ∧
    readU32 (((ihdrData w h).drop 4).take 4) = h ∧
    (ihdrData w h).drop 8 = [8, 2, 0, 0, 0] := by
  refine ⟨?_, ?_, ?_, ihdrData_drop8 w h⟩
  · unfold pngHeaderPayload
    rw [parse_create_png compress w h r g b hcb hclen]
    rfl
  · rw [ihdrData_take4]
    exact readU32_packU32 hw
  · rw [ihdrData_drop4, List.take_left' (packU32_length h)]
    exact readU32_packU32 hh

/-- C3 witness at `compress = id`, a 5×4 black image. -/
theorem claim_C3_witness :
    (5 < 2 ^ 32 ∧ 4 < 2 ^ 32) ∧
    pngHeaderPayload (create_png id 5 4 0 0 0) = some (ihdrData 5 4) ∧
    readU32 ((ihdrData 5 4).take 4) = 5 ∧
    readU32 (((ihdrData 5 4).drop 4).take 4) = 4 ∧
    (ihdrData 5 4).drop 8 = [8, 2, 0, 0, 0] :=
  ⟨⟨by decide, by decide⟩,
   claim_C3_ihdr_fields id 5 4 0 0 0 (by decide) (by decide)
     (by decide) (by decide)⟩

/-- C4: the IDAT payload of the output is `compress` applied to the raw
scanline stream; inflating it gives exactly `height` scanlines, each a
filter byte 0 followed by `width` copies of the 3-byte pixel, for a total
length of `height * (1 + 3 * width)`. -/
theorem claim_C4_idat_scanlines (compress inflate : List Nat → List Nat)
    (w h r g b : Nat)
    (hinf : inflate (compress (rawData w h r g b)) = rawData w h r g b) :
    create_png compress w h r g b =
      pngSignature ++ png_chunk ihdrType (ihdrData w h) ++
        png_chunk idatType (compress (rawData w h r g b)) ++
        png_chunk iendType [] ∧
    inflate (compress (rawData w h r g b)) =
      (List.replicate h (0 :: pngRow w r g b)).flatten ∧
    pngRow w r g b = (List.replicate w [r, g, b]).flatten ∧
    (List.replicate h (0 :: pngRow w r g b)).length = h ∧
    (∀ row ∈ List.replicate h (0 :: pngRow w r g b),
      row = 0 :: pngRow w r g b ∧ row.length = 1 + 3 * w) ∧
    (inflate (compress (rawData w h r g b))).length = h * (1 + 3 * w) := by
  refine ⟨rfl, ?_, rfl, List.length_replicate h _, ?_, ?_⟩
  · rw [hinf, rawData_eq]
  · intro row hrow
    rw [List.eq_of_mem_replicate hrow]
    refine ⟨rfl, ?_⟩
    simp only [List.length_cons, pngRow_length]
    omega
  · rw [hinf, rawData_length]

/-- C4 witness at `compress = inflate = id`, a 2×2 black image. -/
theorem claim_C4_witness :
    id (id (rawData 2 2 0 0 0)) = rawData 2 2 0 0 0 ∧
    id (id (rawData 2 2 0 0 0)) =
      (List.replicate 2 (0 :: pngRow 2 0 0 0)).flatten ∧
    (id (id (rawData 2 2 0 0 0))).length = 2 * (1 + 3 * 2) :=
  ⟨rfl, (claim_C4_idat_scanlines id id 2 2 0 0 0 rfl).2.1,
   (claim_C4_idat_scanlines id id 2 2 0 0 0 rfl).2.2.2.2.2⟩

/-- C5: the encoder is deterministic — equal inputs give byte-identical
output; the embedding of `create_png` is a pure function of its inputs and
the (itself deterministic) `zlib.compress` it calls, with no timestamp,
randomness, or other run-dependent state. -/
theorem claim_C5_deterministic (compress : List Nat → List Nat)
    (w₁ h₁ r₁ g₁ b₁ w₂ h₂ r₂ g₂ b₂ : Nat)
    (hw : w₁ = w₂) (hh : h₁ = h₂) (hr : r₁ = r₂) (hg : g₁ = g₂)
    (hb : b₁ = b₂) :
    create_png compress w₁ h₁ r₁ g₁ b₁ = create_png compress w₂ h₂ r₂ g₂ b₂ := by
  subst hw hh hr hg hb
  rfl

/-- C5 witness: two runs on 2×2 black agree. -/
theorem claim_C5_witness :
    (2 = 2) ∧ create_png id 2 2 0 0 0 = create_png id 2 2 0 0 0 :=
  ⟨rfl, claim_C5_deterministic id 2 2 0 0 0 2 2 0 0 0 rfl rfl rfl rfl rfl⟩

/-- C6: for every input, the output buffer begins with the fixed 8-byte PNG
signature `0x89 'PNG' CR LF 0x1A LF`. -/
theorem claim_C6_signature (compress : List Nat → List Nat) (w h r g b : Nat) :
    pngSignature <+: create_png compress w h r g b ∧
    (create_png compress w h r g b).take 8 = pngSignature := by
  constructor
  · exact ⟨png_chunk ihdrType (ihdrData w h) ++
      (png_chunk idatType (compress (rawData w h r g b)) ++
        png_chunk iendType []), by simp [create_png, List.append_assoc]⟩
  · exact create_png_take8 compress w h r g b

/-- C7: the fallback chain tries PIL, then the subprocess converters
(`rsvg-convert`, then `qlmanage`), then `create_png_native`, in that fixed
order; each strategy is attempted at most once, the first success wins (no
later strategy is attempted, every earlier one failed), and when everything
else fails the winner is the always-succeeding native encoder. -/
theorem claim_C7_fallback_chain (e : FallbackEnv) :
    ((generate_background_run e).1 <+: strategyOrder) ∧
    (generate_background_run e).1.Nodup ∧
    strategySucceeds e (generate_background_run e).2 = true ∧
    (generate_background_run e).1.getLast? =
      some (generate_background_run e).2 ∧
    (∀ s ∈ (generate_background_run e).1.dropLast,
      strategySucceeds e s = false) ∧
    (e.pilAvailable = false → e.rsvgOk = false → e.qlmanageOk = false →
      (generate_background_run e).2 = Strategy.nativeEncoder) := by
  obtain ⟨p, r, q⟩ := e
  revert p r q
  decide

/-- C7 witness: with every external strategy failing, the chain terminates in
the native encoder. -/
theorem claim_C7_witness :
    (generate_background_run ⟨false, false, false⟩).2 =
      Strategy.nativeEncoder :=
  (claim_C7_fallback_chain ⟨false, false, false⟩).2.2.2.2.2 rfl rfl rfl

/-- C8 counterexample: with ten arguments whose width field is `"abc"`, the
arity check passes and `int("abc")` raises an uncaught `ValueError` — the
program crashes with a traceback instead of printing the usage message. -/
theorem claim_C8_counterexample :
    10 ≤ badArgv.length ∧ mainModel badArgv = CliOutcome.valueError ∧
    mainModel badArgv ≠ CliOutcome.usageExit := by
  decide

/-- C8 (amended): an invocation with fewer than nine user arguments
(`len(sys.argv) < 10`) prints the usage message and exits with code 1; an
invocation with enough arguments but a non-integer numeric field instead
raises an uncaught `ValueError` (exit via traceback, no usage message). -/
theorem claim_C8_amended :
    (∀ argv : List String, argv.length < 10 →
      mainModel argv = CliOutcome.usageExit ∧
        exitCode (mainModel argv) = 1) ∧
    (∀ argv : List String, 10 ≤ argv.length →
      ((argv.drop 2).take 8).mapM pyInt = none →
      mainModel argv = CliOutcome.valueError) := by
  constructor
  · intro argv hlen
    unfold mainModel
    rw [if_pos hlen]
    exact ⟨rfl, rfl⟩
  · intro argv hlen hparse
    unfold mainModel
    rw [if_neg (by omega), hparse]

/-- C8 witness: the empty command line hits the usage branch; `badArgv` hits
the `ValueError` branch. -/
theorem claim_C8_witness :
    (mainModel [] = CliOutcome.usageExit ∧ exitCode (mainModel []) = 1) ∧
    mainModel badArgv = CliOutcome.valueError :=
  ⟨claim_C8_amended.1 [] (by decide),
   claim_C8_amended.2 badArgv (by decide) (by decide)⟩

/-- C9: the output is exactly the 8-byte signature followed by exactly three
chunks in the order IHDR, IDAT, IEND — always a single IDAT — and the IEND
payload is empty. -/
theorem claim_C9_chunk_stream (compress : List Nat → List Nat)
    (w h r g b : Nat)
    (hcb : ∀ x ∈ compress (rawData w h r g b), x < 256)
    (hclen : (compress (rawData w h r g b)).length < 2 ^ 32) :
    ∃ cs, parseChunks ((create_png compress w h r g b).drop 8) = some cs ∧
      (create_png compress w h r g b).take 8 = pngSignature ∧
      cs.map Prod.fst = [ihdrType, idatType, iendType] ∧
      (cs.filter fun c => c.1 = idatType).length = 1 ∧
      (∃ c, cs.getLast? = some c ∧ c.1 = iendType ∧ c.2.1 = []) ∧
      create_png compress w h r g b =
        pngSignature ++ (cs.map chunkBytes).flatten := by
  refine ⟨_, parse_create_png compress w h r g b hcb hclen,
    create_png_take8 compress w h r g b, rfl, ?_, ?_, ?_⟩
  · simp [idatType, iendType, ihdrType]
  · exact ⟨_, rfl, rfl, rfl⟩
  · have hser : (([(ihdrType, ihdrData w h, crc32 (ihdrType ++ ihdrData w h)),
        (idatType, compress (rawData w h r g b),
          crc32 (idatType ++ compress (rawData w h r g b))),
        (iendType, ([] : List Nat), crc32 (iendType ++ []))].map
          chunkBytes).flatten) =
        (create_png compress w h r g b).drop 8 := by
      rw [create_png_drop8]
      simp [chunkBytes, png_chunk, List.append_assoc]
    rw [hser, ← create_png_take8 compress w h r g b]
    exact (List.take_append_drop 8 (create_png compress w h r g b)).symm

/-- C9 witness at `compress = id`, a 1×1 black image. -/
theorem claim_C9_witness :
    ((∀ x ∈ id (rawData 1 1 0 0 0), x < 256) ∧
      (id (rawData 1 1 0 0 0)).length < 2 ^ 32) ∧
    ∃ cs, parseChunks ((create_png id 1 1 0 0 0).drop 8) = some cs ∧
      (create_png id 1 1 0 0 0).take 8 = pngSignature ∧
      cs.map Prod.fst = [ihdrType, idatType, iendType] ∧
      (cs.filter fun c => c.1 = idatType).length = 1 ∧
      (∃ c, cs.getLast? = some c ∧ c.1 = iendType ∧ c.2.1 = []) ∧
      create_png id 1 1 0 0 0 = pngSignature ++ (cs.map chunkBytes).flatten :=
  ⟨⟨by decide, by decide⟩,
   claim_C9_chunk_stream id 1 1 0 0 0 (by decide) (by decide)⟩

/-- C10: `create_png_native` takes only width and height, hard-codes the fill
color `(0, 0, 0)`, and its output decodes to an all-black `width × height`
image. -/
theorem claim_C10_native_black (compress inflate : List Nat → List Nat)
    (w h : Nat) (hw : w < 2 ^ 32) (hh : h < 2 ^ 32)
    (hcb : ∀ x ∈ compress (rawData w h 0 0 0), x < 256)
    (hclen : (compress (rawData w h 0 0 0)).length < 2 ^ 32)
    (hinf : inflate (compress (rawData w h 0 0 0)) = rawData w h 0 0 0) :
    create_png_native compress w h = create_png compress w h 0 0 0 ∧
    decodePng inflate (create_png_native compress w h) =
      some (List.replicate h (List.replicate w (0, 0, 0))) ∧
    ∀ row ∈ List.replicate h (List.replicate w ((0 : Nat), (0 : Nat), (0 : Nat))),
      ∀ px ∈ row, px = (0, 0, 0) := by
  refine ⟨rfl, ?_, ?_⟩
  · exact decode_create_png compress inflate w h 0 0 0 hw hh hcb hclen hinf
  · intro row hrow px hpx
    rw [List.eq_of_mem_replicate hrow] at hpx
    exact List.eq_of_mem_replicate hpx

/-- C10 witness at `compress = inflate = id`, a 3×2 canvas. -/
theorem claim_C10_witness :
    ((∀ x ∈ id (rawData 3 2 0 0 0), x < 256) ∧
      id (id (rawData 3 2 0 0 0)) = rawData 3 2 0 0 0) ∧
    create_png_native id 3 2 = create_png id 3 2 0 0 0 ∧
    decodePng id (create_png_native id 3 2) =
      some (List.replicate 2 (List.replicate 3 (0, 0, 0))) ∧
    ∀ row ∈ List.replicate 2 (List.replicate 3 ((0 : Nat), (0 : Nat), (0 : Nat))),
      ∀ px ∈ row, px = (0, 0, 0) :=
  ⟨⟨by decide, rfl⟩,
   claim_C10_native_black id id 3 2 (by decide) (by decide) (by decide)
     (by decide) rfl⟩

end GenerateBackground
